import Mathlib

/-!
A shallow embedding of `src/main.py` (a FastAPI currency-price proxy) and
proofs about its handlers.

Modelling conventions:
* HTML pages are abstracted to the table structure BeautifulSoup extracts:
  a page is a `List Table`, a table a list of rows, a row the list of its
  cells' text.  Upstream HTTP is a function parameter of each handler.
* Python `dict`s are association lists with insertion-order semantics:
  inserting an existing key overwrites in place, a new key is appended.
* Python `datetime` dates are `(year, month, day)` triples; date
  subtraction and `timedelta` addition go through a day ordinal
  (proleptic Gregorian), exactly as `datetime.date.toordinal` does up to
  a constant epoch shift, which cancels in every use the code makes.
* `strptime` with formats `"%Y-%m"` / `"%Y-%m-%d"` is modelled after
  CPython's `_strptime` regexes (`%Y` = exactly four digits, `%m` and
  `%d` one or two digits with the usual range patterns, full match
  required) followed by the `datetime` constructor's range validation.
* Machine integers do not occur: Python integers are unbounded, so `Int`
  / `Nat` are exact models.
* Exceptions are `Except` values; an uncaught Python exception is an
  `.error`.
-/

namespace PriceProxy

/-! ## Characters and digits -/

def isDigitChar (c : Char) : Bool := 48 ≤ c.toNat && c.toNat ≤ 57

def digitVal (c : Char) : Nat := c.toNat - 48

/-- The ASCII digit character for `n % 10`. -/
def dchar (n : Nat) : Char := Char.ofNat (48 + n % 10)

/-- Python `str.lower()` restricted to ASCII (upstream currency codes are
ASCII). -/
def lowerChar (c : Char) : Char :=
  if 65 ≤ c.toNat && c.toNat ≤ 90 then Char.ofNat (c.toNat + 32) else c

def py_lower (s : String) : String := ⟨s.data.map lowerChar⟩

/-! ## Python `int(str)`

`int` strips surrounding whitespace, accepts an optional sign, then a
nonempty digit sequence in which single underscores may separate digits.
On anything else it raises `ValueError`, modelled as `none`. -/

def isPySpace (c : Char) : Bool :=
  c.toNat = 32 || c.toNat = 9 || c.toNat = 10 || c.toNat = 13 || c.toNat = 11 || c.toNat = 12

/-- Valid continuation of a digit sequence after one digit was read:
digits, with single underscores allowed between digits. -/
def digitsURest : List Char → Bool
  | [] => true
  | '_' :: c :: cs => isDigitChar c && digitsURest cs
  | c :: cs => isDigitChar c && digitsURest cs

/-- A valid unsigned Python integer literal body. -/
def isPyIntBody : List Char → Bool
  | c :: cs => isDigitChar c && digitsURest cs
  | [] => false

def digitsVal (l : List Char) : Nat :=
  l.foldl (fun a c => 10 * a + digitVal c) 0

def pyIntOfBody (l : List Char) : Option Int :=
  if isPyIntBody l then some (digitsVal (l.filter isDigitChar) : Nat) else none

/-- Model of Python `int(s)`: `some n` on success, `none` for `ValueError`. -/
def py_int (s : String) : Option Int :=
  let l := ((s.data.dropWhile isPySpace).reverse.dropWhile isPySpace).reverse
  match l with
  | '-' :: rest => (pyIntOfBody rest).map (fun n => -n)
  | '+' :: rest => pyIntOfBody rest
  | rest => pyIntOfBody rest

/-! ## Dates -/

structure Date where
  year : Nat
  month : Nat
  day : Nat
deriving DecidableEq, Repr

def isLeap (y : Nat) : Prop := y % 4 = 0 ∧ (y % 100 ≠ 0 ∨ y % 400 = 0)

instance (y : Nat) : Decidable (isLeap y) := by
  unfold isLeap; infer_instance

def daysInMonth (y m : Nat) : Nat :=
  if m = 2 then (if isLeap y then 29 else 28)
  else if m = 4 ∨ m = 6 ∨ m = 9 ∨ m = 11 then 30
  else 31

/-- A date `datetime.date(year, month, day)` accepts. -/
def ValidDate (dt : Date) : Prop :=
  1 ≤ dt.year ∧ dt.year ≤ 9999 ∧ 1 ≤ dt.month ∧ dt.month ≤ 12 ∧
    1 ≤ dt.day ∧ dt.day ≤ daysInMonth dt.year dt.month

instance (dt : Date) : Decidable (ValidDate dt) := by
  unfold ValidDate; infer_instance

/-- CPython's `_DAYS_BEFORE_MONTH[m]` (days in a non-leap year before
month `m`). -/
def daysBeforeMonth (m : Nat) : Nat :=
  if m = 1 then 0 else if m = 2 then 31 else if m = 3 then 59
  else if m = 4 then 90 else if m = 5 then 120 else if m = 6 then 151
  else if m = 7 then 181 else if m = 8 then 212 else if m = 9 then 243
  else if m = 10 then 273 else if m = 11 then 304 else 334

/-- CPython's `_DAYS_IN_MONTH[m]` (non-leap length of month `m`). -/
def daysInMonthTable (m : Nat) : Nat :=
  if m = 2 then 28 else if m = 4 ∨ m = 6 ∨ m = 9 ∨ m = 11 then 30 else 31

/-- CPython's `_days_before_year(y)`. -/
def daysBeforeYear (y : Nat) : Nat :=
  (y - 1) * 365 + (y - 1) / 4 - (y - 1) / 100 + (y - 1) / 400

/-- `datetime.date.toordinal()` (CPython's `_ymd2ord`): day 1 is
0001-01-01. -/
def toOrdinal (dt : Date) : Nat :=
  daysBeforeYear dt.year + daysBeforeMonth dt.month +
    (if 2 < dt.month ∧ isLeap dt.year then 1 else 0) + dt.day

/-- `_ord2ymd`'s `leap` flag: year `n1` of the current 4-year block is a
leap year. -/
def pyLeap (n100 n4 n1 : Nat) : Prop := n1 = 3 ∧ (n4 ≠ 24 ∨ n100 = 3)

instance (n100 n4 n1 : Nat) : Decidable (pyLeap n100 n4 n1) := by
  unfold pyLeap; infer_instance

/-- `_ord2ymd`'s first month estimate `(n + 50) >> 5`. -/
def monthGuess (n : Nat) : Nat := (n + 50) / 32

/-- `_ord2ymd`'s `preceding`: days of the year before the estimated
month. -/
def precedingDays (n100 n4 n1 n : Nat) : Nat :=
  daysBeforeMonth (monthGuess n) +
    (if 2 < monthGuess n ∧ pyLeap n100 n4 n1 then 1 else 0)

/-- The body of CPython's `_ord2ymd` after its four `divmod`s:
`n400, n100, n4, n1` are the counts of 400-, 100-, 4- and 1-year blocks
and `n` the remaining day index within year `n1`. -/
def ord2ymdCore (n400 n100 n4 n1 n : Nat) : Date :=
  if n1 = 4 ∨ n100 = 4 then
    ⟨n400 * 400 + n100 * 100 + n4 * 4 + n1, 12, 31⟩
  else if n < precedingDays n100 n4 n1 n then
    ⟨n400 * 400 + n100 * 100 + n4 * 4 + n1 + 1, monthGuess n - 1,
      n - (precedingDays n100 n4 n1 n -
        (daysInMonthTable (monthGuess n - 1) +
          (if monthGuess n - 1 = 2 ∧ pyLeap n100 n4 n1 then 1 else 0))) + 1⟩
  else
    ⟨n400 * 400 + n100 * 100 + n4 * 4 + n1 + 1, monthGuess n,
      n - precedingDays n100 n4 n1 n + 1⟩

/-- `datetime.date.fromordinal` (CPython's `_ord2ymd`): the inverse of
`toOrdinal` on ordinals ≥ 1. -/
def fromOrdinal (nn : Nat) : Date :=
  let n0 := nn - 1
  let r400 := n0 % 146097
  let r100 := r400 % 36524
  let r4 := r100 % 1461
  ord2ymdCore (n0 / 146097) (r400 / 36524) (r100 / 1461) (r4 / 365) (r4 % 365)

/-! ### `strftime` -/

def pad2chars (n : Nat) : List Char := [dchar (n / 10), dchar n]

def pad4chars (n : Nat) : List Char :=
  [dchar (n / 1000), dchar (n / 100), dchar (n / 10), dchar n]

/-- `dt.strftime("%Y-%m-%d")` (zero-padded fields). -/
def strftimeYMD (dt : Date) : String :=
  ⟨pad4chars dt.year ++ '-' :: pad2chars dt.month ++ '-' :: pad2chars dt.day⟩

/-- `dt.strftime("%Y-%m")`. -/
def strftimeYM (dt : Date) : String :=
  ⟨pad4chars dt.year ++ '-' :: pad2chars dt.month⟩

/-! ### `strptime`

CPython compiles `%Y` to `\d{4}`, `%m` to `1[0-2]|0[1-9]|[1-9]` and `%d`
to `3[01]|[12]\d|0[1-9]|[1-9]`, requires the whole string to match, and
then `datetime(...)` validates ranges (year ≥ 1, day ≤ month length). -/

/-- Read exactly four digits. -/
def parse4 : List Char → Option (Nat × List Char)
  | a :: b :: c :: d :: rest =>
    if isDigitChar a && isDigitChar b && isDigitChar c && isDigitChar d then
      some (1000 * digitVal a + 100 * digitVal b + 10 * digitVal c + digitVal d, rest)
    else none
  | _ => none

/-- The two-digit alternatives of `%m`: `1[0-2] | 0[1-9]`. -/
def monthPat2 (a b : Char) : Bool :=
  (a.toNat = 49 && 48 ≤ b.toNat && b.toNat ≤ 50) ||
  (a.toNat = 48 && 49 ≤ b.toNat && b.toNat ≤ 57)

/-- The one-digit alternative of `%m` and `%d`: `[1-9]`. -/
def pat1to9 (a : Char) : Bool := 49 ≤ a.toNat && a.toNat ≤ 57

/-- The two-digit alternatives of `%d`: `3[01] | [12]\d | 0[1-9]`. -/
def dayPat2 (a b : Char) : Bool :=
  (a.toNat = 51 && 48 ≤ b.toNat && b.toNat ≤ 49) ||
  (49 ≤ a.toNat && a.toNat ≤ 50 && 48 ≤ b.toNat && b.toNat ≤ 57) ||
  (a.toNat = 48 && 49 ≤ b.toNat && b.toNat ≤ 57)

def expectDash : List Char → Option (List Char)
  | '-' :: rest => some rest
  | _ => none

/-- The two-digit alternatives of `%m`, then the rest of the pattern. -/
def tryMonth2 {α : Type} : List Char → (List Char → Option α) → Option (Nat × α)
  | a :: b :: rest, k =>
    if monthPat2 a b then (k rest).map (fun x => (10 * digitVal a + digitVal b, x)) else none
  | _, _ => none

/-- The one-digit alternative of `%m`, then the rest of the pattern. -/
def tryMonth1 {α : Type} : List Char → (List Char → Option α) → Option (Nat × α)
  | a :: rest, k =>
    if pat1to9 a then (k rest).map (fun x => (digitVal a, x)) else none
  | _, _ => none

/-- `%m` followed by a continuation, with regex backtracking: the
two-digit alternatives are tried first, the one-digit one if the rest of
the pattern then fails. -/
def parseMonthThen {α : Type} (l : List Char) (k : List Char → Option α) : Option (Nat × α) :=
  tryMonth2 l k <|> tryMonth1 l k

/-- The two-digit alternatives of a final `%d`. -/
def tryDay2 : List Char → Option Nat
  | [a, b] => if dayPat2 a b then some (10 * digitVal a + digitVal b) else none
  | _ => none

/-- The one-digit alternative of a final `%d`. -/
def tryDay1 : List Char → Option Nat
  | [a] => if pat1to9 a then some (digitVal a) else none
  | _ => none

/-- `%d` at the end of the format: a day number consuming the whole rest. -/
def parseDayEnd (l : List Char) : Option Nat :=
  tryDay2 l <|> tryDay1 l

def parseYMDchars (l : List Char) : Option (Nat × Nat × Nat) :=
  match parse4 l with
  | none => none
  | some (y, r1) =>
    match expectDash r1 with
    | none => none
    | some r2 =>
      match parseMonthThen r2 (fun r => (expectDash r).bind parseDayEnd) with
      | none => none
      | some (m, d) => some (y, m, d)

def parseYMchars (l : List Char) : Option (Nat × Nat) :=
  match parse4 l with
  | none => none
  | some (y, r1) =>
    match expectDash r1 with
    | none => none
    | some r2 =>
      match parseMonthThen r2 (fun r => if r.isEmpty then some () else none) with
      | none => none
      | some (m, _) => some (y, m)

/-- `datetime.strptime(s, "%Y-%m-%d")`: `none` models `ValueError`. -/
def strptimeYMD (s : String) : Option Date :=
  match parseYMDchars s.data with
  | some (y, m, d) =>
    if 1 ≤ y ∧ d ≤ daysInMonth y m then some ⟨y, m, d⟩ else none
  | none => none

/-- `datetime.strptime(s, "%Y-%m")`: the day defaults to 1. -/
def strptimeYM (s : String) : Option Date :=
  match parseYMchars s.data with
  | some (y, m) => if 1 ≤ y then some ⟨y, m, 1⟩ else none
  | none => none

/-! ## Python dicts as insertion-ordered association lists -/

def dict_insert {α : Type} : List (String × α) → String → α → List (String × α)
  | [], k, v => [(k, v)]
  | (k', v') :: rest, k, v =>
    if k' = k then (k', v) :: rest else (k', v') :: dict_insert rest k v

def dict_keys {α : Type} (d : List (String × α)) : List String := d.map Prod.fst

def dict_get {α : Type} : List (String × α) → String → Option α
  | [], _ => none
  | (k', v') :: rest, k => if k' = k then some v' else dict_get rest k

/-- `d.pop(k)`: the removed value and the remaining dict. -/
def dict_pop {α : Type} : List (String × α) → String → Option (α × List (String × α))
  | [], _ => none
  | (k', v') :: rest, k =>
    if k' = k then some (v', rest)
    else (dict_pop rest k).map (fun p => (p.1, (k', v') :: p.2))

/-! ## Pages, rows and upstream HTTP

BeautifulSoup is abstracted away: a fetched page is the list of its
`<table>` elements, each a list of `<tr>` rows, each row the list of its
`<td>` cells' text.  `crawl_soup` raising on a non-200 status is an
`.error` of the upstream function. -/

abbrev Row := List String
abbrev Table := List Row
abbrev Page := List Table

/-- Uncaught Python exceptions of the handlers. -/
inductive PyFailure where
  | http_exception (status : Nat) (detail : String)
  | index_error
  | attribute_error
  | type_error
  | key_error
  | crawl_error
deriving DecidableEq, Repr

/-- A `{"sell": ..., "buy": ...}` result object. -/
structure Quote where
  sell : Int
  buy : Int
deriving DecidableEq, Repr

/-- Python `lst[:-1]`. -/
def pySliceToLast {α : Type} (l : List α) : List α := l.take (l.length - 1)

/-- `merge_and_extract_tables(tables_soup)` from `src/main.py`: for each
table, append each row after the first (as its cell texts) to the
accumulator. -/
def merge_and_extract_tables (tables_soup : Page) : List Row :=
  tables_soup.foldl (fun tables table_soup =>
    (table_soup.drop 1).foldl (fun acc tr => acc ++ [tr]) tables) []

/-! ## `/historical/{currency}` (`read_historical_currency`) -/

/-- One iteration of the row loop of `read_historical_currency`
(lines 103-111): `contextlib.suppress(ValueError)` turns an `int()`
failure into a skipped row, while an out-of-range index is an uncaught
`IndexError`.  Evaluation order follows the Python statements. -/
def processHistRow (prices : List (String × Quote)) (row : Row) :
    Except PyFailure (List (String × Quote)) :=
  match row[0]? with
  | none => .error .index_error
  | some exact_date =>
    match row[1]? with
    | none => .error .index_error
    | some s1 =>
      match py_int s1 with
      | none => .ok prices
      | some sell =>
        match row[2]? with
        | none => .error .index_error
        | some s2 =>
          match py_int s2 with
          | none => .ok prices
          | some buy =>
            if 0 < sell ∧ 0 < buy then
              .ok (dict_insert prices exact_date ⟨sell, buy⟩)
            else .ok prices

def histFold (rows : List Row) (prices : List (String × Quote)) :
    Except PyFailure (List (String × Quote)) :=
  match rows with
  | [] => .ok prices
  | r :: rs =>
    match processHistRow prices r with
    | .error e => .error e
    | .ok p => histFold rs p

/-- `GET /historical/{currency}`.  `upstream date currency` is the parsed
page of `POST {BASE}/historical` (`.error` = non-200).  The result also
carries the list of `(date, currency)` fetches performed. -/
def read_historical_currency
    (upstream : String → String → Except Unit Page)
    (currency : String) (date : String) :
    Except PyFailure (List (String × Quote)) × List (String × String) :=
  match strptimeYM date with
  | none => (.error (.http_exception 422 "Invalid Date format. Expected YYYY-MM"), [])
  | some d =>
    let ds := strftimeYMD d
    match upstream ds currency with
    | .error _ => (.error .crawl_error, [(ds, currency)])
    | .ok page =>
      match page.head? with
      | none => (.error .attribute_error, [(ds, currency)])
      | some table_soup =>
        let table := table_soup.drop 1
        (histFold table [], [(ds, currency)])

/-! ## `/archive/` (`read_archive`) -/

/-- Values of the `/archive/` result dict: the `"date"` entry is a
string, the per-currency entries are quote objects. -/
inductive ArchVal where
  | str (s : String)
  | quote (q : Quote)
deriving DecidableEq, Repr

/-- One iteration of the row loop of `read_archive` (lines 130-138),
with the same `ValueError`-suppression semantics. -/
def processArchiveRow (prices : List (String × ArchVal)) (row : Row) :
    Except PyFailure (List (String × ArchVal)) :=
  match row[0]? with
  | none => .error .index_error
  | some c0 =>
    let currency := py_lower c0
    match row[2]? with
    | none => .error .index_error
    | some s2 =>
      match py_int s2 with
      | none => .ok prices
      | some sell =>
        match row[3]? with
        | none => .error .index_error
        | some s3 =>
          match py_int s3 with
          | none => .ok prices
          | some buy =>
            if 0 < sell ∧ 0 < buy then
              .ok (dict_insert prices currency (.quote ⟨sell, buy⟩))
            else .ok prices

def archiveFold (rows : List Row) (prices : List (String × ArchVal)) :
    Except PyFailure (List (String × ArchVal)) :=
  match rows with
  | [] => .ok prices
  | r :: rs =>
    match processArchiveRow prices r with
    | .error e => .error e
    | .ok p => archiveFold rs p

/-- `GET /archive/`.  `upstream date` is the parsed page of
`POST {BASE}/archive`; the returned trace lists the dates fetched. -/
def read_archive (upstream : String → Except Unit Page) (date : String) :
    Except PyFailure (List (String × ArchVal)) × List String :=
  match strptimeYMD date with
  | none => (.error (.http_exception 422 "Invalid Date format. Expected YYYY-MM-DD"), [])
  | some d =>
    let ds := strftimeYMD d
    match upstream ds with
    | .error _ => (.error .crawl_error, [ds])
    | .ok page =>
      let table := merge_and_extract_tables (pySliceToLast page)
      (archiveFold table [("date", .str ds)], [ds])

/-! ## `/archive/range` (`read_archive_range`) -/

/-- Python `range(n)` for a possibly negative bound. -/
def pyRange (n : Int) : List Nat := List.range n.toNat

/-- The loop of `read_archive_range` (lines 164-168): for each day
offset, call `read_archive`, pop its `"date"` entry and re-key by it.
Popping a non-string (a currency that shadowed `"date"`) would be an
unhashable dict key, i.e. a `TypeError`. -/
def rangeLoop (upstream : String → Except Unit Page) (startOrd : Nat) :
    List Nat → List (String × List (String × ArchVal)) → List String →
    Except PyFailure (List (String × List (String × ArchVal))) × List String
  | [], acc, log => (.ok acc, log)
  | i :: rest, acc, log =>
    let dayStr := strftimeYMD (fromOrdinal (startOrd + i))
    match read_archive upstream dayStr with
    | (.error e, l) => (.error e, log ++ l)
    | (.ok price, l) =>
      match dict_pop price "date" with
      | none => (.error .key_error, log ++ l)
      | some (.str d, price') =>
        rangeLoop upstream startOrd rest (dict_insert acc d price') (log ++ l)
      | some (.quote _, _) => (.error .type_error, log ++ l)

/-- `GET /archive/range`. -/
def read_archive_range (upstream : String → Except Unit Page)
    (start_date end_date : String) :
    Except PyFailure (List (String × List (String × ArchVal))) × List String :=
  match strptimeYMD start_date with
  | none => (.error (.http_exception 422 "Invalid Date format. Expected YYYY-MM-DD"), [])
  | some ds =>
    match strptimeYMD end_date with
    | none => (.error (.http_exception 422 "Invalid Date format. Expected YYYY-MM-DD"), [])
    | some de =>
      let durationDays : Int := (toOrdinal de : Int) - (toOrdinal ds : Int)
      rangeLoop upstream (toOrdinal ds) (pyRange (durationDays + 1)) [] []

/-! ## `/latest` (`read_latest`) -/

/-- A currency object of `bonbast.server.get_prices_from_api`. -/
structure BonbastCurrency where
  code : String
  sell : Int
  buy : Int

/-- `GET /latest`: a dict comprehension over the upstream currency list,
keyed by the lower-cased code. -/
def read_latest (currencies : List BonbastCurrency) : List (String × Quote) :=
  currencies.foldl (fun acc c => dict_insert acc (py_lower c.code) ⟨c.sell, c.buy⟩) []

/-! ## `/crypto` (`get_crypto_prices`) -/

/-- JSON values of the crypto API response body. -/
inductive Jv where
  | str (s : String)
  | num (n : Int)
  | arr (vs : List Jv)
  | obj (fields : List (String × Jv))

def jGet (v : Jv) (k : String) : Option Jv :=
  match v with
  | .obj fields => dict_get fields k
  | _ => none

/-- `GET /crypto`: `response.raise_for_status()` raises `HTTPStatusError`
for every non-2xx status, which the handler re-raises as an
`HTTPException` carrying the upstream status code; on success the handler
returns `data["result"]["symbols"]`. -/
def get_crypto_prices (status : Nat) (body : Jv) : Except PyFailure Jv :=
  if 200 ≤ status ∧ status < 300 then
    match jGet body "result" with
    | none => .error .key_error
    | some r =>
      match jGet r "symbols" with
      | none => .error .key_error
      | some v => .ok v
  else
    .error (.http_exception status "upstream error")

/-! ## Query-parameter defaults (lines 88, 116, 152)

The default expressions `datetime.date.today().strftime(...)` in the
`def` headers are evaluated once, when the module is imported, not per
request.  `startupToday` is the process's `date.today()` at import time. -/

/-- Default of the `date` parameter of `/historical/{currency}`. -/
def historicalDefaultDate (startupToday : Date) : String := strftimeYM startupToday

/-- Default of the `date` parameter of `/archive/` and of the `end_date`
parameter of `/archive/range`: yesterday relative to import time. -/
def archiveDefaultDate (startupToday : Date) : String :=
  strftimeYMD (fromOrdinal (toOrdinal startupToday - 1))

/-- The date string the `/historical/{currency}` handler runs with, given
the startup date and the optional query parameter. -/
def historicalDateUsed (startupToday : Date) (dateParam : Option String) : String :=
  dateParam.getD (historicalDefaultDate startupToday)

def archiveDateUsed (startupToday : Date) (dateParam : Option String) : String :=
  dateParam.getD (archiveDefaultDate startupToday)

/-- Modelled from the spec: what the claim asserts the defaults are —
computed from `date.today()` *at request time*. -/
def specHistoricalDefaultDate (requestToday : Date) : String := strftimeYM requestToday

/-- Modelled from the spec: yesterday at request time. -/
def specArchiveDefaultDate (requestToday : Date) : String :=
  strftimeYMD (fromOrdinal (toOrdinal requestToday - 1))

/-! ## Background poller (`scheduler`, lines 75-79)

Two `scheduler` definitions appear in the source; the second silently
shadows the first, so the effective one runs both fetches.  A cycle is
modelled as a function of the two fetch outcomes; the cache backend is an
association list from key to (value, expiry time); observable actions are
recorded in a trace. -/

inductive CacheVal where
  | latest (d : List (String × Quote))
  | crypto (v : Jv)

inductive PollEvent where
  | store (key : String) (ttl : Nat)
  | log_error (msg : String)
  | sleep (secs : Nat)
deriving DecidableEq, Repr

abbrev CacheState := List (String × CacheVal × Nat)

/-- `cache_backend.set(key, value, expire=ttl)` at time `now`. -/
def cache_set (st : CacheState) (key : String) (v : CacheVal) (ttl now : Nat) : CacheState :=
  dict_insert st key (v, now + ttl)

/-- `fetch_and_cache_data` (lines 49-55): the outcome of
`read_latest()` is either a value or a raised exception, which is caught
and logged. -/
def fetch_and_cache_data (outcome : Except String (List (String × Quote)))
    (st : CacheState) (now : Nat) : CacheState × List PollEvent :=
  match outcome with
  | .ok d => (cache_set st "latest_data" (.latest d) (60 * 30) now, [.store "latest_data" (60 * 30)])
  | .error e => (st, [.log_error ("Error fetching data: " ++ e)])

/-- `fetch_crypto_data` (lines 67-73). -/
def fetch_crypto_data (outcome : Except String Jv)
    (st : CacheState) (now : Nat) : CacheState × List PollEvent :=
  match outcome with
  | .ok v => (cache_set st "crypto_data" (.crypto v) (60 * 30) now, [.store "crypto_data" (60 * 30)])
  | .error e => (st, [.log_error ("Error fetching crypto data: " ++ e)])

/-- One cycle of the effective `scheduler` loop (lines 75-79). -/
def schedulerCycle (latestOutcome : Except String (List (String × Quote)))
    (cryptoOutcome : Except String Jv) (st : CacheState) (now : Nat) :
    CacheState × List PollEvent :=
  let (st1, e1) := fetch_and_cache_data latestOutcome st now
  let (st2, e2) := fetch_crypto_data cryptoOutcome st1 now
  (st2, e1 ++ e2 ++ [.sleep 10])

/-- The first `n` cycles of the scheduler, fed by a stream of per-cycle
fetch outcomes and clock readings. -/
def schedulerRun (outcomes : Nat → Except String (List (String × Quote)) × Except String Jv)
    (clock : Nat → Nat) (st0 : CacheState) : Nat → CacheState × List PollEvent
  | 0 => (st0, [])
  | n + 1 =>
    let (st, tr) := schedulerRun outcomes clock st0 n
    let (st', tr') := schedulerCycle (outcomes n).1 (outcomes n).2 st (clock n)
    (st', tr ++ tr')

/-! ## Auxiliary definitions for the claims -/

/-- Whether the archive row loop body completes without an uncaught
exception on this row (this does not depend on the accumulated dict). -/
def archRowOk (r : Row) : Bool :=
  match processArchiveRow [] r with
  | .ok _ => true
  | .error _ => false

/-- The first cell of the row does not lower-case to `"date"` (so the
row cannot shadow the `"date"` entry of the archive dict). -/
def rowNotDate (r : Row) : Bool :=
  match r[0]? with
  | none => true
  | some c0 => py_lower c0 ≠ "date"

/-- A concrete upstream for the `C1` witness: every archive page has one
currency table (header row plus a USD row) followed by a trailing table
that `[:-1]` drops. -/
def upstreamC1 : String → Except Unit Page := fun _ =>
  .ok [[["Code", "x", "Sell", "Buy"], ["USD", "x", "5", "6"]], [["trailer"]]]

def upstreamC10 : String → Except Unit Page := fun _ => .ok []

deriving instance DecidableEq for Except

def upstreamC8hist : String → String → Except Unit Page := fun _ _ =>
  .ok [[["Date", "Sell", "Buy"], ["2024-01-05", "7"]]]

def upstreamC8arch : String → Except Unit Page := fun _ =>
  .ok [[["Code", "x", "Sell", "Buy"], ["usd", "x", "7"]], [["trailer"]]]

/-- The retention rule of the spec: keep a row's price cells exactly
when both parse as Python ints and are positive. -/
def keepPrice (s1 s2 : String) : Option (Int × Int) :=
  match py_int s1, py_int s2 with
  | some sell, some buy => if 0 < sell ∧ 0 < buy then some (sell, buy) else none
  | _, _ => none

def currenciesC7 : List BonbastCurrency := [⟨"USD", 50, 51⟩]

def upstreamC7 : String → Except Unit Page := fun _ =>
  .ok [[["Code", "x", "Sell", "Buy"], ["EUR", "x", "5", "7"]], [["trailer"]]]

def upstreamC2h : String → String → Except Unit Page := fun _ _ =>
  .ok [[["Date", "Sell", "Buy"], ["2024-01-05", "5", "7"]]]

def upstreamC2a : String → Except Unit Page := fun _ =>
  .ok [[["Code", "x", "Sell", "Buy"], ["USD", "x", "5", "7"]], [["trailer"]]]

/-! ## Lemmas: date arithmetic -/

theorem year_mk (y m d : Nat) : (Date.mk y m d).year = y := rfl

theorem month_mk (y m d : Nat) : (Date.mk y m d).month = m := rfl

theorem day_mk (y m d : Nat) : (Date.mk y m d).day = d := rfl

theorem toOrdinal_mk (y m dd : Nat) : toOrdinal ⟨y, m, dd⟩ =
    daysBeforeYear y + daysBeforeMonth m + (if 2 < m ∧ isLeap y then 1 else 0) + dd := rfl

set_option maxHeartbeats 2000000 in
theorem ord2ymdCore_ord (a b c d e : Nat)
    (hr400 : 36524 * b + 1461 * c + 365 * d + e ≤ 146096)
    (hr100 : 1461 * c + 365 * d + e ≤ 36523)
    (hr4 : 365 * d + e ≤ 1460) (he : e ≤ 364) :
    toOrdinal (ord2ymdCore a b c d e) =
      146097 * a + 36524 * b + 1461 * c + 365 * d + e + 1 := by
  obtain ⟨mg, hmg⟩ : ∃ mg, monthGuess e = mg := ⟨_, rfl⟩
  have hmgdef : (e + 50) / 32 = mg := hmg
  unfold ord2ymdCore
  by_cases h0 : d = 4 ∨ b = 4
  · rw [if_pos h0]
    rw [toOrdinal_mk]
    have h334 : daysBeforeMonth 12 = 334 := by decide
    rw [h334]
    rcases h0 with h | h
    · subst h
      have hcond : 2 < 12 ∧ isLeap (a * 400 + b * 100 + c * 4 + 4) :=
        ⟨by norm_num, by simp only [isLeap]; exact ⟨by omega, Or.inl (by omega)⟩⟩
      rw [if_pos hcond]
      simp only [daysBeforeYear]
      have hE : a * 400 + b * 100 + c * 4 + 4 - 1 = a * 400 + b * 100 + c * 4 + 3 := by omega
      rw [hE]
      have h1 : (a * 400 + b * 100 + c * 4 + 3) / 4 = 100 * a + 25 * b + c := by omega
      have h2 : (a * 400 + b * 100 + c * 4 + 3) / 100 = 4 * a + b := by omega
      have h3 : (a * 400 + b * 100 + c * 4 + 3) / 400 = a := by omega
      rw [h1, h2, h3]
      omega
    · subst h
      have hc0 : c = 0 := by omega
      have hd0 : d = 0 := by omega
      subst hc0; subst hd0
      have hcond : 2 < 12 ∧ isLeap (a * 400 + 4 * 100 + 0 * 4 + 0) :=
        ⟨by norm_num, by simp only [isLeap]; exact ⟨by omega, Or.inr (by omega)⟩⟩
      rw [if_pos hcond]
      simp only [daysBeforeYear]
      have hE : a * 400 + 4 * 100 + 0 * 4 + 0 - 1 = a * 400 + 399 := by omega
      rw [hE]
      have h1 : (a * 400 + 399) / 4 = 100 * a + 99 := by omega
      have h2 : (a * 400 + 399) / 100 = 4 * a + 3 := by omega
      have h3 : (a * 400 + 399) / 400 = a := by omega
      rw [h1, h2, h3]
      omega
  · rw [if_neg h0]
    simp only [precedingDays]
    rw [hmg, apply_ite toOrdinal]
    simp only [toOrdinal_mk]
    simp only [daysBeforeYear]
    have hyear : a * 400 + b * 100 + c * 4 + d + 1 - 1 = a * 400 + b * 100 + c * 4 + d := by omega
    rw [hyear]
    have h1 : (a * 400 + b * 100 + c * 4 + d) / 4 = 100 * a + 25 * b + c := by omega
    have h2 : (a * 400 + b * 100 + c * 4 + d) / 100 = 4 * a + b := by omega
    have h3 : (a * 400 + b * 100 + c * 4 + d) / 400 = a := by omega
    rw [h1, h2, h3]
    have m4 : (a * 400 + b * 100 + c * 4 + d + 1) % 4 = 0 ↔ d = 3 := by omega
    have m100 : (a * 400 + b * 100 + c * 4 + d + 1) % 100 = 0 ↔ (c = 24 ∧ d = 3) := by omega
    have m400 : (a * 400 + b * 100 + c * 4 + d + 1) % 400 = 0 ↔ (b = 3 ∧ c = 24 ∧ d = 3) := by
      omega
    have hiso : isLeap (a * 400 + b * 100 + c * 4 + d + 1) ↔ (d = 3 ∧ (c ≠ 24 ∨ b = 3)) := by
      simp only [isLeap, m4, m100, m400]
      omega
    simp only [hiso, pyLeap]
    have hmg1 : 1 ≤ mg := by omega
    have hmg2 : mg ≤ 12 := by omega
    clear hmg hyear h1 h2 h3 hiso m4 m100 m400
    interval_cases mg <;>
      (simp only [daysBeforeMonth, daysInMonthTable]; norm_num; first | (split_ifs <;> omega) | omega)

theorem toOrdinal_fromOrdinal (n : Nat) (h : 1 ≤ n) : toOrdinal (fromOrdinal n) = n := by
  simp only [fromOrdinal]
  rw [ord2ymdCore_ord] <;> omega

set_option maxHeartbeats 2000000 in
theorem ord2ymdCore_valid (a b c d e : Nat)
    (hr400 : 36524 * b + 1461 * c + 365 * d + e ≤ 146096)
    (hr100 : 1461 * c + 365 * d + e ≤ 36523)
    (hr4 : 365 * d + e ≤ 1460) (he : e ≤ 364)
    (hcap : 146097 * a + 36524 * b + 1461 * c + 365 * d + e ≤ 3652058) :
    ValidDate (ord2ymdCore a b c d e) := by
  obtain ⟨mg, hmg⟩ : ∃ mg, monthGuess e = mg := ⟨_, rfl⟩
  have hmgdef : (e + 50) / 32 = mg := hmg
  unfold ord2ymdCore ValidDate
  by_cases h0 : d = 4 ∨ b = 4
  · rw [if_pos h0]
    simp only [year_mk, month_mk, day_mk, daysInMonth]
    norm_num
    omega
  · rw [if_neg h0]
    simp only [precedingDays]
    rw [hmg, apply_ite (fun dt : Date => 1 ≤ dt.year ∧ dt.year ≤ 9999 ∧ 1 ≤ dt.month ∧
      dt.month ≤ 12 ∧ 1 ≤ dt.day ∧ dt.day ≤ daysInMonth dt.year dt.month)]
    simp only [year_mk, month_mk, day_mk]
    simp only [daysInMonth]
    have m4 : (a * 400 + b * 100 + c * 4 + d + 1) % 4 = 0 ↔ d = 3 := by omega
    have m100 : (a * 400 + b * 100 + c * 4 + d + 1) % 100 = 0 ↔ (c = 24 ∧ d = 3) := by omega
    have m400 : (a * 400 + b * 100 + c * 4 + d + 1) % 400 = 0 ↔ (b = 3 ∧ c = 24 ∧ d = 3) := by
      omega
    have hiso : isLeap (a * 400 + b * 100 + c * 4 + d + 1) ↔ (d = 3 ∧ (c ≠ 24 ∨ b = 3)) := by
      simp only [isLeap, m4, m100, m400]
      omega
    simp only [hiso, pyLeap]
    have hmg1 : 1 ≤ mg := by omega
    have hmg2 : mg ≤ 12 := by omega
    clear hmg hiso m4 m100 m400
    interval_cases mg <;>
      (simp only [daysBeforeMonth, daysInMonthTable]; norm_num; first | (split_ifs <;> omega) | omega)

set_option maxHeartbeats 1000000 in
theorem toOrdinal_bounds (dt : Date) (h : ValidDate dt) :
    1 ≤ toOrdinal dt ∧ toOrdinal dt ≤ 3652059 := by
  obtain ⟨h1, h2, h3, h4, h5, h6⟩ := h
  simp only [daysInMonth] at h6
  simp only [toOrdinal, daysBeforeYear, daysBeforeMonth, isLeap]
  simp only [isLeap] at h6
  split_ifs at h6 ⊢ <;> omega

theorem validDate_fromOrdinal (n : Nat) (h1 : 1 ≤ n) (h2 : n ≤ 3652059) :
    ValidDate (fromOrdinal n) := by
  simp only [fromOrdinal]
  apply ord2ymdCore_valid <;> omega

/-! ## Lemmas: `strftime` / `strptime` -/

theorem toNat_dchar (n : Nat) : (dchar n).toNat = 48 + n % 10 := by
  have hv : (48 + n % 10).isValidChar := Or.inl (by omega)
  simp [dchar, Char.ofNat, Char.ofNatAux, hv, Char.toNat, UInt32.toNat]

theorem dchar_inj (m n : Nat) (h : dchar m = dchar n) : m % 10 = n % 10 := by
  have h' := congrArg Char.toNat h
  rw [toNat_dchar, toNat_dchar] at h'
  omega

theorem isDigitChar_dchar (n : Nat) : isDigitChar (dchar n) = true := by
  simp only [isDigitChar, toNat_dchar, Bool.and_eq_true, decide_eq_true_eq]
  omega

theorem digitVal_dchar (n : Nat) : digitVal (dchar n) = n % 10 := by
  simp only [digitVal, toNat_dchar]
  omega

theorem monthPat2_pad (m : Nat) (h1 : 1 ≤ m) (h2 : m ≤ 12) :
    monthPat2 (dchar (m / 10)) (dchar m) = true := by
  simp only [monthPat2, toNat_dchar, Bool.or_eq_true, Bool.and_eq_true, decide_eq_true_eq]
  omega

theorem dayPat2_pad (d : Nat) (h1 : 1 ≤ d) (h2 : d ≤ 31) :
    dayPat2 (dchar (d / 10)) (dchar d) = true := by
  simp only [dayPat2, toNat_dchar, Bool.or_eq_true, Bool.and_eq_true, decide_eq_true_eq]
  omega

theorem strftimeYMD_data (dt : Date) : (strftimeYMD dt).data =
    [dchar (dt.year / 1000), dchar (dt.year / 100), dchar (dt.year / 10), dchar dt.year,
     '-', dchar (dt.month / 10), dchar dt.month, '-', dchar (dt.day / 10), dchar dt.day] := rfl

theorem strftimeYM_data (dt : Date) : (strftimeYM dt).data =
    [dchar (dt.year / 1000), dchar (dt.year / 100), dchar (dt.year / 10), dchar dt.year,
     '-', dchar (dt.month / 10), dchar dt.month] := rfl

theorem daysInMonth_le (y m : Nat) : daysInMonth y m ≤ 31 := by
  simp only [daysInMonth]
  split_ifs <;> omega

theorem strftimeYMD_inj (d1 d2 : Date)
    (hy1 : d1.year ≤ 9999) (hm1 : d1.month ≤ 99) (hd1 : d1.day ≤ 99)
    (hy2 : d2.year ≤ 9999) (hm2 : d2.month ≤ 99) (hd2 : d2.day ≤ 99)
    (h : strftimeYMD d1 = strftimeYMD d2) : d1 = d2 := by
  have hd := congrArg String.data h
  rw [strftimeYMD_data, strftimeYMD_data] at hd
  simp only [List.cons.injEq, and_true] at hd
  obtain ⟨e1, e2, e3, e4, -, e5, e6, -, e7, e8⟩ := hd
  have g1 := dchar_inj _ _ e1
  have g2 := dchar_inj _ _ e2
  have g3 := dchar_inj _ _ e3
  have g4 := dchar_inj _ _ e4
  have g5 := dchar_inj _ _ e5
  have g6 := dchar_inj _ _ e6
  have g7 := dchar_inj _ _ e7
  have g8 := dchar_inj _ _ e8
  obtain ⟨y1, m1, dd1⟩ := d1
  obtain ⟨y2, m2, dd2⟩ := d2
  simp only [year_mk, month_mk, day_mk] at g1 g2 g3 g4 g5 g6 g7 g8 hy1 hm1 hd1 hy2 hm2 hd2 ⊢
  have a1 : y1 = y2 := by omega
  have a2 : m1 = m2 := by omega
  have a3 : dd1 = dd2 := by omega
  rw [a1, a2, a3]

theorem strptimeYMD_strftimeYMD (dt : Date) (h : ValidDate dt) :
    strptimeYMD (strftimeYMD dt) = some dt := by
  obtain ⟨hy1, hy2, hm1, hm2, hd1, hd6⟩ := h
  have hd2 : dt.day ≤ 31 := le_trans hd6 (daysInMonth_le _ _)
  obtain ⟨y, m, d⟩ := dt
  simp only [year_mk, month_mk, day_mk] at *
  unfold strptimeYMD
  rw [strftimeYMD_data]
  simp only [parseYMDchars, parse4, expectDash, parseMonthThen, tryMonth2, tryMonth1,
    parseDayEnd, tryDay2, tryDay1, isDigitChar_dchar, digitVal_dchar,
    monthPat2_pad m hm1 hm2, dayPat2_pad d hd1 hd2, Bool.and_self, if_true,
    Option.bind_eq_bind, Option.some_bind, Option.map_some]
  simp only [Option.map_some, Option.some_orElse, Option.pure_def, Option.some_bind]
  have hy : 1000 * (y / 1000 % 10) + 100 * (y / 100 % 10) + 10 * (y / 10 % 10) + y % 10 = y := by
    omega
  have hm : 10 * (m / 10 % 10) + m % 10 = m := by omega
  have hdd : 10 * (d / 10 % 10) + d % 10 = d := by omega
  rw [hy, hm, hdd]
  show (if 1 ≤ y ∧ d ≤ daysInMonth y m then some (Date.mk y m d) else none) = some ⟨y, m, d⟩
  rw [if_pos (And.intro hy1 hd6)]

theorem isDigitChar_le (ch : Char) (h : isDigitChar ch = true) :
    48 ≤ ch.toNat ∧ ch.toNat ≤ 57 := by
  simp only [isDigitChar, Bool.and_eq_true, decide_eq_true_eq] at h
  exact h

theorem parse4_bound (l : List Char) (y : Nat) (r : List Char) (h : parse4 l = some (y, r)) :
    y ≤ 9999 := by
  rcases l with _ | ⟨a, _ | ⟨b, _ | ⟨c, _ | ⟨d, rest⟩⟩⟩⟩ <;>
    simp only [parse4] at h <;>
    try exact Option.noConfusion h
  split at h
  · rename_i hg
    simp only [Bool.and_eq_true] at hg
    obtain ⟨⟨⟨ha, hb⟩, hc⟩, hd⟩ := hg
    obtain ⟨ha1, ha2⟩ := isDigitChar_le _ ha
    obtain ⟨hb1, hb2⟩ := isDigitChar_le _ hb
    obtain ⟨hc1, hc2⟩ := isDigitChar_le _ hc
    obtain ⟨hd1, hd2⟩ := isDigitChar_le _ hd
    injection h with h'
    have hy : y = 1000 * digitVal a + 100 * digitVal b + 10 * digitVal c + digitVal d := by
      have := congrArg Prod.fst h'
      simp at this
      omega
    simp only [digitVal] at hy
    omega
  · exact absurd h (by simp)

theorem tryMonth2_some {α : Type} (l : List Char) (k : List Char → Option α) (m : Nat) (x : α)
    (h : tryMonth2 l k = some (m, x)) :
    (1 ≤ m ∧ m ≤ 12) ∧ ∃ r, k r = some x := by
  rcases l with _ | ⟨a, _ | ⟨b, rest⟩⟩ <;>
    simp only [tryMonth2] at h <;>
    try exact Option.noConfusion h
  split at h
  · rename_i hg
    simp only [monthPat2, Bool.or_eq_true, Bool.and_eq_true, decide_eq_true_eq] at hg
    simp only [Option.map_eq_some'] at h
    obtain ⟨x', hx1, hx2⟩ := h
    have hm : m = 10 * digitVal a + digitVal b := by
      have := congrArg Prod.fst hx2
      simp at this
      omega
    have hx : x' = x := by
      have := congrArg Prod.snd hx2
      simpa using this
    subst hx
    refine ⟨?_, rest, hx1⟩
    simp only [digitVal] at hm
    omega
  · exact absurd h (by simp)

theorem tryMonth1_some {α : Type} (l : List Char) (k : List Char → Option α) (m : Nat) (x : α)
    (h : tryMonth1 l k = some (m, x)) :
    (1 ≤ m ∧ m ≤ 9) ∧ ∃ r, k r = some x := by
  rcases l with _ | ⟨a, rest⟩ <;>
    simp only [tryMonth1] at h <;>
    try exact Option.noConfusion h
  split at h
  · rename_i hg
    simp only [pat1to9, Bool.and_eq_true, decide_eq_true_eq] at hg
    simp only [Option.map_eq_some'] at h
    obtain ⟨x', hx1, hx2⟩ := h
    have hm : m = digitVal a := by
      have := congrArg Prod.fst hx2
      simp at this
      omega
    have hx : x' = x := by
      have := congrArg Prod.snd hx2
      simpa using this
    subst hx
    refine ⟨?_, rest, hx1⟩
    simp only [digitVal] at hm
    omega
  · exact absurd h (by simp)

theorem parseMonthThen_some {α : Type} (l : List Char) (k : List Char → Option α) (m : Nat)
    (x : α) (h : parseMonthThen l k = some (m, x)) :
    (1 ≤ m ∧ m ≤ 12) ∧ ∃ r, k r = some x := by
  unfold parseMonthThen at h
  cases h2 : tryMonth2 l k with
  | some v =>
    rw [h2, Option.some_orElse] at h
    rw [h] at h2
    exact tryMonth2_some l k m x h2
  | none =>
    rw [h2, Option.none_orElse] at h
    have := tryMonth1_some l k m x h
    exact ⟨⟨this.1.1, by omega⟩, this.2⟩

theorem tryDay2_bound (l : List Char) (d : Nat) (h : tryDay2 l = some d) : 1 ≤ d ∧ d ≤ 31 := by
  rcases l with _ | ⟨a, _ | ⟨b, _ | ⟨c, rest⟩⟩⟩ <;>
    simp only [tryDay2] at h <;>
    try exact Option.noConfusion h
  split at h
  · rename_i hg
    simp only [dayPat2, Bool.or_eq_true, Bool.and_eq_true, decide_eq_true_eq] at hg
    injection h with h'
    simp only [digitVal] at h'
    omega
  · exact absurd h (by simp)

theorem tryDay1_bound (l : List Char) (d : Nat) (h : tryDay1 l = some d) : 1 ≤ d ∧ d ≤ 9 := by
  rcases l with _ | ⟨a, _ | ⟨b, rest⟩⟩ <;>
    simp only [tryDay1] at h <;>
    try exact Option.noConfusion h
  split at h
  · rename_i hg
    simp only [pat1to9, Bool.and_eq_true, decide_eq_true_eq] at hg
    injection h with h'
    simp only [digitVal] at h'
    omega
  · exact absurd h (by simp)

theorem parseDayEnd_bound (l : List Char) (d : Nat) (h : parseDayEnd l = some d) :
    1 ≤ d ∧ d ≤ 31 := by
  unfold parseDayEnd at h
  cases h2 : tryDay2 l with
  | some v =>
    rw [h2, Option.some_orElse] at h
    rw [h] at h2
    exact tryDay2_bound l d h2
  | none =>
    rw [h2, Option.none_orElse] at h
    have := tryDay1_bound l d h
    omega

theorem parseYMDchars_bound (l : List Char) (y m d : Nat)
    (h : parseYMDchars l = some (y, m, d)) :
    y ≤ 9999 ∧ 1 ≤ m ∧ m ≤ 12 ∧ 1 ≤ d ∧ d ≤ 31 := by
  unfold parseYMDchars at h
  split at h
  · exact absurd h (by simp)
  · rename_i y' r1 h4
    split at h
    · exact absurd h (by simp)
    · rename_i r2 hdash
      split at h
      · exact absurd h (by simp)
      · rename_i m' d' hmd
        injection h with h'
        obtain ⟨hy, hm, hd⟩ : y' = y ∧ m' = m ∧ d' = d := by
          have h1 := congrArg Prod.fst h'
          have h2 := congrArg (fun p => p.2.1) h'
          have h3 := congrArg (fun p => p.2.2) h'
          simp at h1 h2 h3
          exact ⟨h1, h2, h3⟩
        rw [hy] at h4
        rw [hm, hd] at hmd
        have hb4 := parse4_bound l y r1 h4
        have hmm := parseMonthThen_some r2 _ m d hmd
        obtain ⟨r3, hk⟩ := hmm.2
        have hdb : 1 ≤ d ∧ d ≤ 31 := by
          cases he : expectDash r3 with
          | none => rw [he] at hk; exact absurd hk (by simp)
          | some r4 =>
            rw [he] at hk
            simp only [Option.some_bind] at hk
            exact parseDayEnd_bound r4 d hk
        exact ⟨hb4, hmm.1.1, hmm.1.2, hdb.1, hdb.2⟩

theorem strptimeYMD_valid (s : String) (dt : Date) (h : strptimeYMD s = some dt) :
    ValidDate dt := by
  unfold strptimeYMD at h
  split at h
  · rename_i y m d hp
    have hb := parseYMDchars_bound _ _ _ _ hp
    split at h
    · rename_i hc
      injection h with h'
      subst h'
      exact ⟨hc.1, hb.1, hb.2.1, hb.2.2.1, hb.2.2.2.1, hc.2⟩
    · exact absurd h (by simp)
  · exact absurd h (by simp)

/-! ## Lemmas: dicts and row processing -/

theorem dict_keys_append {α : Type} (d1 d2 : List (String × α)) :
    dict_keys (d1 ++ d2) = dict_keys d1 ++ dict_keys d2 := by
  simp [dict_keys]

theorem dict_insert_eq_append {α : Type} (d : List (String × α)) (k : String) (v : α)
    (h : k ∉ dict_keys d) : dict_insert d k v = d ++ [(k, v)] := by
  induction d with
  | nil => rfl
  | cons hd tl ih =>
    simp only [dict_keys, List.map_cons, List.mem_cons] at h
    push_neg at h
    simp only [dict_insert]
    rw [if_neg (fun hh => h.1 hh.symm), ih (by simpa [dict_keys] using h.2)]
    simp

theorem mem_keys_insert {α : Type} (d : List (String × α)) (k k' : String) (v : α)
    (h : k' ∈ dict_keys (dict_insert d k v)) : k' ∈ dict_keys d ∨ k' = k := by
  induction d with
  | nil => simpa [dict_insert, dict_keys] using h
  | cons hd tl ih =>
    simp only [dict_insert] at h
    split at h
    · simp only [dict_keys, List.map_cons, List.mem_cons] at h ⊢
      rcases h with h | h
      · exact Or.inl (Or.inl h)
      · exact Or.inl (Or.inr h)
    · simp only [dict_keys, List.map_cons, List.mem_cons] at h ⊢
      rcases h with h | h
      · exact Or.inl (Or.inl h)
      · rcases ih h with h' | h'
        · exact Or.inl (Or.inr h')
        · exact Or.inr h'

theorem dict_get_append_left {α : Type} (d1 d2 : List (String × α)) (k : String) (v : α)
    (h : dict_get d1 k = some v) : dict_get (d1 ++ d2) k = some v := by
  induction d1 with
  | nil => simp [dict_get] at h
  | cons hd tl ih =>
    simp only [dict_get, List.cons_append] at h ⊢
    split at h
    · rw [if_pos (by assumption)]; exact h
    · rw [if_neg (by assumption)]; exact ih h

theorem dict_get_append_self {α : Type} (d : List (String × α)) (k : String) (v : α)
    (h : k ∉ dict_keys d) : dict_get (d ++ [(k, v)]) k = some v := by
  induction d with
  | nil => simp [dict_get]
  | cons hd tl ih =>
    simp only [dict_keys, List.map_cons, List.mem_cons] at h
    push_neg at h
    simp only [List.cons_append, dict_get]
    rw [if_neg (fun hh => h.1 hh.symm)]
    exact ih (by simpa [dict_keys] using h.2)

theorem dict_pop_cons_self {α : Type} (k : String) (v : α) (t : List (String × α)) :
    dict_pop ((k, v) :: t) k = some (v, t) := by
  simp [dict_pop]

theorem processArchiveRow_cases (r : Row) :
    (∃ e, ∀ q, processArchiveRow q r = .error e) ∨
    (∀ q, processArchiveRow q r = .ok q) ∨
    (∃ c0 sell buy, r[0]? = some c0 ∧ 0 < sell ∧ 0 < buy ∧
      ∀ q, processArchiveRow q r =
        .ok (dict_insert q (py_lower c0) (.quote ⟨sell, buy⟩))) := by
  cases h0 : r[0]? with
  | none => exact Or.inl ⟨.index_error, fun q => by simp only [processArchiveRow, h0]⟩
  | some c0 =>
    cases h2 : r[2]? with
    | none => exact Or.inl ⟨.index_error, fun q => by simp only [processArchiveRow, h0, h2]⟩
    | some s2 =>
      cases hp2 : py_int s2 with
      | none => exact Or.inr (Or.inl (fun q => by simp only [processArchiveRow, h0, h2, hp2]))
      | some sell =>
        cases h3 : r[3]? with
        | none =>
          exact Or.inl ⟨.index_error, fun q => by simp only [processArchiveRow, h0, h2, hp2, h3]⟩
        | some s3 =>
          cases hp3 : py_int s3 with
          | none =>
            exact Or.inr (Or.inl (fun q => by
              simp only [processArchiveRow, h0, h2, hp2, h3, hp3]))
          | some buy =>
            by_cases hpos : 0 < sell ∧ 0 < buy
            · exact Or.inr (Or.inr ⟨c0, sell, buy, rfl, hpos.1, hpos.2, fun q => by
                simp only [processArchiveRow, h0, h2, hp2, h3, hp3]
                rw [if_pos hpos]⟩)
            · exact Or.inr (Or.inl (fun q => by
                simp only [processArchiveRow, h0, h2, hp2, h3, hp3]
                rw [if_neg hpos]))

theorem archRowOk_not_error (r : Row) (h : archRowOk r = true) :
    (∀ q, processArchiveRow q r = .ok q) ∨
    (∃ c0 sell buy, r[0]? = some c0 ∧ 0 < sell ∧ 0 < buy ∧
      ∀ q, processArchiveRow q r =
        .ok (dict_insert q (py_lower c0) (.quote ⟨sell, buy⟩))) := by
  rcases processArchiveRow_cases r with ⟨e, he⟩ | hc | hc
  · rw [archRowOk, he []] at h
    simp at h
  · exact Or.inl hc
  · exact Or.inr hc


theorem archiveFold_date (rows : List Row) (v : ArchVal) (t : List (String × ArchVal))
    (hrows : ∀ r ∈ rows, archRowOk r = true ∧ rowNotDate r = true)
    (ht : "date" ∉ dict_keys t) :
    ∃ t', archiveFold rows (("date", v) :: t) = .ok (("date", v) :: t') ∧
      "date" ∉ dict_keys t' := by
  induction rows generalizing t with
  | nil => exact ⟨t, rfl, ht⟩
  | cons r rs ih =>
    obtain ⟨hok, hnd⟩ := hrows r (List.mem_cons_self r rs)
    have hrest : ∀ r' ∈ rs, archRowOk r' = true ∧ rowNotDate r' = true :=
      fun r' hr' => hrows r' (List.mem_cons_of_mem r hr')
    rcases archRowOk_not_error r hok with hskip | ⟨c0, sell, buy, h0, hs, hb, hins⟩
    · simp only [archiveFold, hskip (("date", v) :: t)]
      exact ih t hrest ht
    · simp only [archiveFold, hins (("date", v) :: t)]
      have hcur : py_lower c0 ≠ "date" := by
        simp only [rowNotDate, h0, decide_eq_true_eq] at hnd
        exact hnd
      have : dict_insert (("date", v) :: t) (py_lower c0) (.quote ⟨sell, buy⟩) =
          ("date", v) :: dict_insert t (py_lower c0) (.quote ⟨sell, buy⟩) := by
        simp only [dict_insert]
        rw [if_neg (fun hh => hcur hh.symm)]
      rw [this]
      have ht' : "date" ∉ dict_keys (dict_insert t (py_lower c0) (.quote ⟨sell, buy⟩)) := by
        intro hmem
        rcases mem_keys_insert _ _ _ _ hmem with h | h
        · exact ht h
        · exact hcur h.symm
      exact ih _ hrest ht'

theorem read_archive_ok (upstream : String → Except Unit Page) (dt : Date) (hv : ValidDate dt)
    (ts : Page) (hts : upstream (strftimeYMD dt) = .ok ts)
    (hrows : ∀ r ∈ merge_and_extract_tables (pySliceToLast ts),
      archRowOk r = true ∧ rowNotDate r = true) :
    ∃ t, read_archive upstream (strftimeYMD dt) =
        (.ok (("date", .str (strftimeYMD dt)) :: t), [strftimeYMD dt]) ∧
      "date" ∉ dict_keys t := by
  simp only [read_archive, strptimeYMD_strftimeYMD dt hv, hts]
  obtain ⟨t', hfold, hnd⟩ :=
    archiveFold_date (merge_and_extract_tables (pySliceToLast ts)) (.str (strftimeYMD dt)) []
      hrows (by simp [dict_keys])
  rw [hfold]
  exact ⟨t', rfl, hnd⟩


set_option maxHeartbeats 1000000 in
theorem rangeLoop_spec (upstream : String → Except Unit Page) (startOrd : Nat) (is : List Nat)
    (acc : List (String × List (String × ArchVal))) (log : List String)
    (hday : ∀ i ∈ is, ∃ t,
      read_archive upstream (strftimeYMD (fromOrdinal (startOrd + i))) =
        (.ok (("date", .str (strftimeYMD (fromOrdinal (startOrd + i)))) :: t),
         [strftimeYMD (fromOrdinal (startOrd + i))]))
    (hnew : ∀ i ∈ is, strftimeYMD (fromOrdinal (startOrd + i)) ∉ dict_keys acc)
    (hinj : is.Pairwise (fun i j =>
      strftimeYMD (fromOrdinal (startOrd + i)) ≠ strftimeYMD (fromOrdinal (startOrd + j)))) :
    ∃ res, rangeLoop upstream startOrd is acc log =
        (.ok res, log ++ is.map (fun i => strftimeYMD (fromOrdinal (startOrd + i)))) ∧
      dict_keys res = dict_keys acc ++ is.map (fun i => strftimeYMD (fromOrdinal (startOrd + i))) ∧
      (∀ k v, dict_get acc k = some v → dict_get res k = some v) ∧
      (∀ i ∈ is, ∃ t, dict_get res (strftimeYMD (fromOrdinal (startOrd + i))) = some t ∧
        read_archive upstream (strftimeYMD (fromOrdinal (startOrd + i))) =
          (.ok (("date", .str (strftimeYMD (fromOrdinal (startOrd + i)))) :: t),
           [strftimeYMD (fromOrdinal (startOrd + i))])) := by
  induction is generalizing acc log with
  | nil =>
    refine ⟨acc, by simp [rangeLoop], by simp, fun k v h => h, by simp⟩
  | cons i rest ih =>
    obtain ⟨t0, ht0⟩ := hday i (List.mem_cons_self i rest)
    have hstep : rangeLoop upstream startOrd (i :: rest) acc log =
        rangeLoop upstream startOrd rest
          (dict_insert acc (strftimeYMD (fromOrdinal (startOrd + i))) t0)
          (log ++ [strftimeYMD (fromOrdinal (startOrd + i))]) := by
      simp only [rangeLoop, ht0, dict_pop_cons_self]
    have hnewi := hnew i (List.mem_cons_self i rest)
    have hins : dict_insert acc (strftimeYMD (fromOrdinal (startOrd + i))) t0 =
        acc ++ [(strftimeYMD (fromOrdinal (startOrd + i)), t0)] :=
      dict_insert_eq_append _ _ _ hnewi
    have hinj_head : ∀ j ∈ rest,
        strftimeYMD (fromOrdinal (startOrd + i)) ≠ strftimeYMD (fromOrdinal (startOrd + j)) :=
      (List.pairwise_cons.mp hinj).1
    have hinj_rest := (List.pairwise_cons.mp hinj).2
    obtain ⟨res, hres, hkeys, hpres, hdays⟩ := ih
      (dict_insert acc (strftimeYMD (fromOrdinal (startOrd + i))) t0)
      (log ++ [strftimeYMD (fromOrdinal (startOrd + i))])
      (fun j hj => hday j (List.mem_cons_of_mem i hj))
      (fun j hj => by
        rw [hins, dict_keys_append]
        simp only [List.mem_append, dict_keys, List.map_cons, List.map_nil, List.mem_singleton]
        rintro (h | h)
        · exact hnew j (List.mem_cons_of_mem i hj) h
        · exact hinj_head j hj h.symm)
      hinj_rest
    refine ⟨res, ?_, ?_, ?_, ?_⟩
    · rw [hstep, hres]
      simp [List.append_assoc]
    · rw [hkeys, hins, dict_keys_append]
      simp [dict_keys, List.append_assoc]
    · intro k v hk
      apply hpres
      rw [hins]
      exact dict_get_append_left _ _ _ _ hk
    · intro j hj
      rcases List.mem_cons.mp hj with hj' | hj'
      · subst hj'
        refine ⟨t0, ?_, ht0⟩
        apply hpres
        rw [hins]
        exact dict_get_append_self _ _ _ hnewi
      · exact hdays j hj'


set_option maxHeartbeats 1000000 in
/-- C1: for every syntactically valid pair of `YYYY-MM-DD` dates with
`start_date ≤ end_date`, and an upstream whose archive pages crawl
successfully and whose rows neither raise `IndexError` nor carry a
currency code lower-casing to `"date"`, the mapping returned by
`GET /archive/range` has exactly `(end_date - start_date).days + 1`
distinct keys, one per calendar day in the inclusive range, and each
day's entry is that day's single-day archive result re-keyed by the
`"date"` field popped from it. -/
theorem archive_range_day_count
    (upstream : String → Except Unit Page) (start_date end_date : String) (ds de : Date)
    (hs : strptimeYMD start_date = some ds) (he : strptimeYMD end_date = some de)
    (hle : toOrdinal ds ≤ toOrdinal de)
    (hup : ∀ s, ∃ ts, upstream s = .ok ts ∧
      ∀ r ∈ merge_and_extract_tables (pySliceToLast ts),
        archRowOk r = true ∧ rowNotDate r = true) :
    ∃ pr, (read_archive_range upstream start_date end_date).1 = .ok pr ∧
      dict_keys pr = (List.range (toOrdinal de - toOrdinal ds + 1)).map
        (fun i => strftimeYMD (fromOrdinal (toOrdinal ds + i))) ∧
      pr.length = toOrdinal de - toOrdinal ds + 1 ∧
      (dict_keys pr).Nodup ∧
      (∀ i ∈ List.range (toOrdinal de - toOrdinal ds + 1), ∃ t,
        dict_get pr (strftimeYMD (fromOrdinal (toOrdinal ds + i))) = some t ∧
        (read_archive upstream (strftimeYMD (fromOrdinal (toOrdinal ds + i)))).1 =
          .ok (("date", .str (strftimeYMD (fromOrdinal (toOrdinal ds + i)))) :: t)) := by
  have hvds := strptimeYMD_valid _ _ hs
  have hvde := strptimeYMD_valid _ _ he
  obtain ⟨hods1, hods2⟩ := toOrdinal_bounds ds hvds
  obtain ⟨hode1, hode2⟩ := toOrdinal_bounds de hvde
  set n := toOrdinal de - toOrdinal ds with hn
  have hvalid : ∀ i, i ≤ n → ValidDate (fromOrdinal (toOrdinal ds + i)) := by
    intro i hi
    exact validDate_fromOrdinal _ (by omega) (by omega)
  have hdayinj : ∀ i, i ≤ n → ∀ j, j ≤ n →
      strftimeYMD (fromOrdinal (toOrdinal ds + i)) =
        strftimeYMD (fromOrdinal (toOrdinal ds + j)) → i = j := by
    intro i hi j hj heq
    obtain ⟨a1, a2, a3, a4, a5, a6⟩ := hvalid i hi
    obtain ⟨b1, b2, b3, b4, b5, b6⟩ := hvalid j hj
    have a7 := le_trans a6 (daysInMonth_le _ _)
    have b7 := le_trans b6 (daysInMonth_le _ _)
    have hfe : fromOrdinal (toOrdinal ds + i) = fromOrdinal (toOrdinal ds + j) :=
      strftimeYMD_inj _ _ a2 (by omega) (by omega)
        b2 (by omega) (by omega) heq
    have := congrArg toOrdinal hfe
    rw [toOrdinal_fromOrdinal _ (by omega), toOrdinal_fromOrdinal _ (by omega)] at this
    omega
  have hrange : read_archive_range upstream start_date end_date =
      rangeLoop upstream (toOrdinal ds)
        (pyRange (((toOrdinal de : Int) - (toOrdinal ds : Int)) + 1)) [] [] := by
    simp only [read_archive_range, hs, he]
  have hpyr : pyRange (((toOrdinal de : Int) - (toOrdinal ds : Int)) + 1) =
      List.range (n + 1) := by
    simp only [pyRange]
    congr 1
    omega
  obtain ⟨res, hres, hkeys, hpres, hdays⟩ :=
    rangeLoop_spec upstream (toOrdinal ds) (List.range (n + 1)) [] []
      (fun i hi => by
        have hi' : i ≤ n := by simpa [Nat.lt_succ_iff] using List.mem_range.mp hi
        obtain ⟨ts, hts, hrows⟩ := hup (strftimeYMD (fromOrdinal (toOrdinal ds + i)))
        obtain ⟨t, ht, -⟩ := read_archive_ok upstream _ (hvalid i hi') ts hts hrows
        exact ⟨t, ht⟩)
      (fun i hi => by simp [dict_keys])
      (by
        refine (List.pairwise_lt_range (n + 1)).imp_of_mem ?_
        intro a b ha hb hab heq
        have ha' : a ≤ n := by simpa [Nat.lt_succ_iff] using List.mem_range.mp ha
        have hb' : b ≤ n := by simpa [Nat.lt_succ_iff] using List.mem_range.mp hb
        exact absurd (hdayinj a ha' b hb' heq) (by omega))
  rw [hpyr] at hrange
  refine ⟨res, ?_, ?_, ?_, ?_, ?_⟩
  · rw [hrange, hres]
  · simpa [dict_keys] using hkeys
  · have : dict_keys res = (List.range (n + 1)).map
        (fun i => strftimeYMD (fromOrdinal (toOrdinal ds + i))) := by
      simpa [dict_keys] using hkeys
    have hlen := congrArg List.length this
    simpa [dict_keys] using hlen
  · have : dict_keys res = (List.range (n + 1)).map
        (fun i => strftimeYMD (fromOrdinal (toOrdinal ds + i))) := by
      simpa [dict_keys] using hkeys
    rw [this]
    refine List.Nodup.map_on ?_ (List.nodup_range _)
    intro a ha b hb heq
    have ha' : a ≤ n := by simpa [Nat.lt_succ_iff] using List.mem_range.mp ha
    have hb' : b ≤ n := by simpa [Nat.lt_succ_iff] using List.mem_range.mp hb
    exact hdayinj a ha' b hb' heq
  · intro i hi
    obtain ⟨t, hget, hpair⟩ := hdays i hi
    exact ⟨t, hget, by rw [hpair]⟩

theorem archive_range_day_count_witness :
    ∃ pr, (read_archive_range upstreamC1 "2024-02-28" "2024-03-01").1 = .ok pr ∧
      dict_keys pr = (List.range (toOrdinal ⟨2024, 3, 1⟩ - toOrdinal ⟨2024, 2, 28⟩ + 1)).map
        (fun i => strftimeYMD (fromOrdinal (toOrdinal ⟨2024, 2, 28⟩ + i))) ∧
      pr.length = toOrdinal ⟨2024, 3, 1⟩ - toOrdinal ⟨2024, 2, 28⟩ + 1 ∧
      (dict_keys pr).Nodup ∧
      (∀ i ∈ List.range (toOrdinal ⟨2024, 3, 1⟩ - toOrdinal ⟨2024, 2, 28⟩ + 1), ∃ t,
        dict_get pr (strftimeYMD (fromOrdinal (toOrdinal ⟨2024, 2, 28⟩ + i))) = some t ∧
        (read_archive upstreamC1 (strftimeYMD (fromOrdinal (toOrdinal ⟨2024, 2, 28⟩ + i)))).1 =
          .ok (("date", .str (strftimeYMD (fromOrdinal (toOrdinal ⟨2024, 2, 28⟩ + i)))) :: t)) :=
  archive_range_day_count upstreamC1 "2024-02-28" "2024-03-01" ⟨2024, 2, 28⟩ ⟨2024, 3, 1⟩
    (by decide) (by decide) (by decide)
    (fun s => ⟨_, rfl, by decide⟩)

example : toOrdinal ⟨2024, 3, 1⟩ - toOrdinal ⟨2024, 2, 28⟩ + 1 = 3 := by decide


/-- C10: start strictly after end gives an empty mapping, no error, no fetch. -/
theorem archive_range_start_after_end
    (upstream : String → Except Unit Page) (start_date end_date : String) (ds de : Date)
    (hs : strptimeYMD start_date = some ds) (he : strptimeYMD end_date = some de)
    (hgt : toOrdinal de < toOrdinal ds) :
    read_archive_range upstream start_date end_date = (.ok [], []) := by
  simp only [read_archive_range, hs, he]
  have hempty : pyRange ((toOrdinal de : Int) - (toOrdinal ds : Int) + 1) = [] := by
    simp only [pyRange]
    have h0 : ((toOrdinal de : Int) - (toOrdinal ds : Int) + 1).toNat = 0 := by omega
    rw [h0]
    rfl
  rw [hempty]
  rfl

theorem archive_range_start_after_end_witness :
    read_archive_range upstreamC10 "2024-01-05" "2024-01-01" = (.ok [], []) :=
  archive_range_start_after_end upstreamC10 "2024-01-05" "2024-01-01"
    ⟨2024, 1, 5⟩ ⟨2024, 1, 1⟩ (by decide) (by decide) (by decide)

theorem foldl_append_singleton {α : Type} (l : List α) (acc : List α) :
    l.foldl (fun a r => a ++ [r]) acc = acc ++ l := by
  induction l generalizing acc with
  | nil => simp
  | cons x xs ih => simp [ih]

theorem merge_eq_flatten (ts : Page) :
    merge_and_extract_tables ts = ts.flatMap (fun t => t.drop 1) := by
  suffices h : ∀ acc, ts.foldl (fun tables table_soup =>
      (table_soup.drop 1).foldl (fun a tr => a ++ [tr]) tables) acc =
      acc ++ ts.flatMap (fun t => t.drop 1) by
    simpa [merge_and_extract_tables] using h []
  induction ts with
  | nil => simp
  | cons t rest ih =>
    intro acc
    rw [List.foldl_cons, foldl_append_singleton, ih]
    simp [List.flatMap_cons, List.append_assoc]

/-- C9: the archive handler's rows come from all tables but the last,
each contributing its rows after the first, in document order. -/
theorem archive_rows_from_tables (tables : Page) :
    pySliceToLast tables = tables.dropLast ∧
    merge_and_extract_tables (pySliceToLast tables) =
      tables.dropLast.flatMap (fun t => t.drop 1) := by
  have hslice : pySliceToLast tables = tables.dropLast := by
    simp [pySliceToLast, List.dropLast_eq_take]
  exact ⟨hslice, by rw [hslice, merge_eq_flatten]⟩


/-- C8: a parsed row with too few cells raises an uncaught `IndexError`
(only `ValueError` is suppressed): a 2-cell row in the historical
handler and a 3-cell row whose third cell parses as an integer in the
archive handler error out instead of being skipped, and the error
propagates out of the handlers. -/
theorem short_row_index_error :
    (["2024-01-05", "7"].length < 3 ∧
      processHistRow [] ["2024-01-05", "7"] = .error .index_error) ∧
    (["usd", "x", "7"].length < 4 ∧
      processArchiveRow [] ["usd", "x", "7"] = .error .index_error) ∧
    (read_historical_currency upstreamC8hist "usd" "2024-01").1 = .error .index_error ∧
    (read_archive upstreamC8arch "2024-01-05").1 = .error .index_error := by
  refine ⟨⟨by decide, by decide⟩, ⟨by decide, by decide⟩, by decide, by decide⟩

theorem mem_keys_insert_self {α : Type} (d : List (String × α)) (k : String) (v : α) :
    k ∈ dict_keys (dict_insert d k v) := by
  induction d with
  | nil => simp [dict_insert, dict_keys]
  | cons hd tl ih =>
    simp only [dict_insert]
    split
    · rename_i h
      simp [dict_keys, h]
    · simp only [dict_keys, List.map_cons, List.mem_cons]
      exact Or.inr ih

/-- C3: a row whose sell or buy cell is not a positive integer
contributes nothing (the dict is unchanged); a row with positive
integer sell and buy is retained under its key.  Covers the row loops
of both `/historical/{currency}` and `/archive/`. -/
theorem row_retention_rule (prices : List (String × Quote))
    (aprices : List (String × ArchVal)) (d c1 c2 c0 x s3 s4 : String)
    (rest arest : List String) :
    (keepPrice c1 c2 = none →
      processHistRow prices (d :: c1 :: c2 :: rest) = .ok prices) ∧
    (∀ sell buy, keepPrice c1 c2 = some (sell, buy) →
      processHistRow prices (d :: c1 :: c2 :: rest) =
        .ok (dict_insert prices d ⟨sell, buy⟩) ∧
      d ∈ dict_keys (dict_insert prices d ⟨sell, buy⟩)) ∧
    (keepPrice s3 s4 = none →
      processArchiveRow aprices (c0 :: x :: s3 :: s4 :: arest) = .ok aprices) ∧
    (∀ sell buy, keepPrice s3 s4 = some (sell, buy) →
      processArchiveRow aprices (c0 :: x :: s3 :: s4 :: arest) =
        .ok (dict_insert aprices (py_lower c0) (.quote ⟨sell, buy⟩)) ∧
      py_lower c0 ∈ dict_keys (dict_insert aprices (py_lower c0) (.quote ⟨sell, buy⟩))) := by
  have hh0 : (d :: c1 :: c2 :: rest)[0]? = some d := by simp
  have hh1 : (d :: c1 :: c2 :: rest)[1]? = some c1 := by simp
  have hh2 : (d :: c1 :: c2 :: rest)[2]? = some c2 := by simp
  have ha0 : (c0 :: x :: s3 :: s4 :: arest)[0]? = some c0 := by simp
  have ha2 : (c0 :: x :: s3 :: s4 :: arest)[2]? = some s3 := by simp
  have ha3 : (c0 :: x :: s3 :: s4 :: arest)[3]? = some s4 := by simp
  refine ⟨?_, ?_, ?_, ?_⟩
  · intro hnone
    cases hp1 : py_int c1 with
    | none => simp only [processHistRow, hh0, hh1, hp1]
    | some sell =>
      cases hp2 : py_int c2 with
      | none => simp only [processHistRow, hh0, hh1, hh2, hp1, hp2]
      | some buy =>
        simp only [keepPrice, hp1, hp2] at hnone
        have hneg : ¬(0 < sell ∧ 0 < buy) := by
          by_contra hpos
          rw [if_pos hpos] at hnone
          exact Option.noConfusion hnone
        simp only [processHistRow, hh0, hh1, hh2, hp1, hp2]
        rw [if_neg hneg]
  · intro sell buy hsome
    simp only [keepPrice] at hsome
    split at hsome
    · rename_i sell' buy' hp1 hp2
      split at hsome
      · rename_i hpos
        injection hsome with hsb
        have hs : sell' = sell := congrArg Prod.fst hsb
        have hb : buy' = buy := congrArg Prod.snd hsb
        subst hs; subst hb
        refine ⟨?_, mem_keys_insert_self _ _ _⟩
        simp only [processHistRow, hh0, hh1, hh2, hp1, hp2]
        rw [if_pos hpos]
      · exact absurd hsome (by simp)
    · exact absurd hsome (by simp)
  · intro hnone
    cases hp1 : py_int s3 with
    | none => simp only [processArchiveRow, ha0, ha2, hp1]
    | some sell =>
      cases hp2 : py_int s4 with
      | none => simp only [processArchiveRow, ha0, ha2, ha3, hp1, hp2]
      | some buy =>
        simp only [keepPrice, hp1, hp2] at hnone
        have hneg : ¬(0 < sell ∧ 0 < buy) := by
          by_contra hpos
          rw [if_pos hpos] at hnone
          exact Option.noConfusion hnone
        simp only [processArchiveRow, ha0, ha2, ha3, hp1, hp2]
        rw [if_neg hneg]
  · intro sell buy hsome
    simp only [keepPrice] at hsome
    split at hsome
    · rename_i sell' buy' hp1 hp2
      split at hsome
      · rename_i hpos
        injection hsome with hsb
        have hs : sell' = sell := congrArg Prod.fst hsb
        have hb : buy' = buy := congrArg Prod.snd hsb
        subst hs; subst hb
        refine ⟨?_, mem_keys_insert_self _ _ _⟩
        simp only [processArchiveRow, ha0, ha2, ha3, hp1, hp2]
        rw [if_pos hpos]
      · exact absurd hsome (by simp)
    · exact absurd hsome (by simp)

theorem row_retention_rule_witness :
    (processHistRow [] ["2024-01-05", "-3", "7"] = .ok [] ∧
      processHistRow [] ["2024-01-05", "x", "7"] = .ok [] ∧
      processHistRow [] ["2024-01-05", "5", "7"] = .ok [("2024-01-05", ⟨5, 7⟩)]) ∧
    (processArchiveRow [] ["USD", "x", "0", "7"] = .ok [] ∧
      processArchiveRow [] ["USD", "x", "5", "7"] = .ok [("usd", .quote ⟨5, 7⟩)]) := by
  refine ⟨⟨?_, ?_, ?_⟩, ?_, ?_⟩
  · exact (row_retention_rule [] [] "2024-01-05" "-3" "7" "c" "x" "a" "b" [] []).1 (by decide)
  · exact (row_retention_rule [] [] "2024-01-05" "x" "7" "c" "x" "a" "b" [] []).1 (by decide)
  · exact ((row_retention_rule [] [] "2024-01-05" "5" "7" "c" "x" "a" "b" [] []).2.1
      5 7 (by decide)).1
  · exact (row_retention_rule [] [] "d" "a" "b" "USD" "x" "0" "7" [] []).2.2.1 (by decide)
  · exact ((row_retention_rule [] [] "d" "a" "b" "USD" "x" "5" "7" [] []).2.2.2
      5 7 (by decide)).1

/-- C4: `GET /crypto` propagates a non-2xx upstream status as the status
of its own error response; on a 2xx response it returns the
`result.symbols` field of the body unmodified. -/
theorem crypto_status_propagation (status : Nat) (body : Jv) :
    (¬(200 ≤ status ∧ status < 300) →
      ∃ detail, get_crypto_prices status body = .error (.http_exception status detail)) ∧
    (∀ r v, 200 ≤ status → status < 300 → jGet body "result" = some r →
      jGet r "symbols" = some v → get_crypto_prices status body = .ok v) := by
  constructor
  · intro hbad
    refine ⟨"upstream error", ?_⟩
    unfold get_crypto_prices
    rw [if_neg hbad]
  · intro r v h1 h2 hr hv
    unfold get_crypto_prices
    rw [if_pos ⟨h1, h2⟩]
    simp only [hr, hv]

theorem crypto_status_propagation_witness :
    (∃ detail, get_crypto_prices 503 (.obj []) = .error (.http_exception 503 detail)) ∧
    get_crypto_prices 200 (.obj [("result", .obj [("symbols", .arr [.str "BTC"])])]) =
      .ok (.arr [.str "BTC"]) :=
  ⟨(crypto_status_propagation 503 (.obj [])).1 (by omega),
   (crypto_status_propagation 200 (.obj [("result", .obj [("symbols", .arr [.str "BTC"])])])).2
     (.obj [("symbols", .arr [.str "BTC"])]) (.arr [.str "BTC"])
     (by omega) (by omega) rfl rfl⟩

/-- C5: the `date` defaults are computed once, from `date.today()` at
module import (process startup), not at request time: a process started
on 2023-12-31 serves requests on 2024-01-01 with historical default
`"2023-12"` (the claim expects `"2024-01"`) and archive default
`"2023-12-30"` (the claim expects yesterday-at-request, `"2023-12-31"`);
the value used is independent of the request-time date. -/
theorem default_dates_fixed_at_startup :
    historicalDateUsed ⟨2023, 12, 31⟩ none = "2023-12" ∧
    specHistoricalDefaultDate ⟨2024, 1, 1⟩ = "2024-01" ∧
    historicalDateUsed ⟨2023, 12, 31⟩ none ≠ specHistoricalDefaultDate ⟨2024, 1, 1⟩ ∧
    archiveDateUsed ⟨2023, 12, 31⟩ none = "2023-12-30" ∧
    specArchiveDefaultDate ⟨2024, 1, 1⟩ = "2023-12-31" ∧
    archiveDateUsed ⟨2023, 12, 31⟩ none ≠ specArchiveDefaultDate ⟨2024, 1, 1⟩ := by
  refine ⟨by decide, by decide, by decide, by decide, by decide, by decide⟩

theorem dict_get_insert_self {α : Type} (d : List (String × α)) (k : String) (v : α) :
    dict_get (dict_insert d k v) k = some v := by
  induction d with
  | nil => simp [dict_insert, dict_get]
  | cons hd tl ih =>
    simp only [dict_insert]
    split
    · rename_i h
      simp [dict_get, h]
    · rename_i h
      simp only [dict_get]
      rw [if_neg h]
      exact ih

theorem dict_get_insert_ne {α : Type} (d : List (String × α)) (k k' : String) (v : α)
    (h : k ≠ k') : dict_get (dict_insert d k v) k' = dict_get d k' := by
  induction d with
  | nil =>
    simp only [dict_insert, dict_get]
    rw [if_neg h]
  | cons hd tl ih =>
    simp only [dict_insert]
    split
    · rename_i he
      simp only [dict_get]
      rw [if_neg (by rw [he]; exact h), if_neg (by rw [he]; exact h)]
    · simp only [dict_get]
      split
      · rfl
      · exact ih

/-- C6: each scheduler cycle appends, in order, the latest-fetch action
(a store under `latest_data` with a 1800-second TTL on success, a logged
error on failure), then the crypto-fetch action (likewise under
`crypto_data`), then a 10-second sleep; a failed fetch is logged and the
run still extends by a full cycle, never terminating. -/
theorem scheduler_cycle_behavior
    (outcomes : Nat → Except String (List (String × Quote)) × Except String Jv)
    (clock : Nat → Nat) (st0 : CacheState) (n : Nat)
    (latestOut : Except String (List (String × Quote))) (cryptoOut : Except String Jv)
    (st : CacheState) (now : Nat) :
    ((schedulerRun outcomes clock st0 (n + 1)).2 =
      (schedulerRun outcomes clock st0 n).2 ++
        (schedulerCycle (outcomes n).1 (outcomes n).2
          (schedulerRun outcomes clock st0 n).1 (clock n)).2) ∧
    ((schedulerCycle latestOut cryptoOut st now).2 =
      (match latestOut with
       | .ok _ => [PollEvent.store "latest_data" (60 * 30)]
       | .error e => [PollEvent.log_error ("Error fetching data: " ++ e)]) ++
      (match cryptoOut with
       | .ok _ => [PollEvent.store "crypto_data" (60 * 30)]
       | .error e => [PollEvent.log_error ("Error fetching crypto data: " ++ e)]) ++
      [PollEvent.sleep 10]) ∧
    (∀ d v, dict_get (schedulerCycle (.ok d) (.ok v) st now).1 "latest_data" =
        some (.latest d, now + 60 * 30) ∧
      dict_get (schedulerCycle (.ok d) (.ok v) st now).1 "crypto_data" =
        some (.crypto v, now + 60 * 30)) ∧
    ((schedulerCycle latestOut cryptoOut st now).2.length = 3) := by
  refine ⟨?_, ?_, ?_, ?_⟩
  · rfl
  · cases latestOut <;> cases cryptoOut <;> rfl
  · intro d v
    constructor
    · show dict_get (cache_set (cache_set st "latest_data" (.latest d) (60 * 30) now)
        "crypto_data" (.crypto v) (60 * 30) now) "latest_data" = some (.latest d, now + 60 * 30)
      unfold cache_set
      rw [dict_get_insert_ne _ _ _ _ (by decide)]
      exact dict_get_insert_self _ _ _
    · show dict_get (cache_set (cache_set st "latest_data" (.latest d) (60 * 30) now)
        "crypto_data" (.crypto v) (60 * 30) now) "crypto_data" = some (.crypto v, now + 60 * 30)
      unfold cache_set
      exact dict_get_insert_self _ _ _
  · cases latestOut <;> cases cryptoOut <;> rfl


theorem read_latest_keys_aux (cs : List BonbastCurrency)
    (acc : List (String × Quote)) (k : String)
    (h : k ∈ dict_keys (cs.foldl
      (fun a c => dict_insert a (py_lower c.code) ⟨c.sell, c.buy⟩) acc)) :
    k ∈ dict_keys acc ∨ ∃ c ∈ cs, k = py_lower c.code := by
  induction cs generalizing acc with
  | nil => exact Or.inl h
  | cons c cs' ih =>
    simp only [List.foldl_cons] at h
    rcases ih _ h with h' | ⟨c', hc', hk⟩
    · rcases mem_keys_insert _ _ _ _ h' with h'' | h''
      · exact Or.inl h''
      · exact Or.inr ⟨c, List.mem_cons_self c cs', h''⟩
    · exact Or.inr ⟨c', List.mem_cons_of_mem c hc', hk⟩

theorem archiveFold_keys (rows : List Row) (p0 p : List (String × ArchVal)) (k : String)
    (h : archiveFold rows p0 = .ok p) (hk : k ∈ dict_keys p) :
    k ∈ dict_keys p0 ∨ ∃ r ∈ rows, ∃ c0, r[0]? = some c0 ∧ k = py_lower c0 := by
  induction rows generalizing p0 with
  | nil =>
    simp only [archiveFold] at h
    injection h with h'
    subst h'
    exact Or.inl hk
  | cons r rs ih =>
    simp only [archiveFold] at h
    cases hpr : processArchiveRow p0 r with
    | error e => rw [hpr] at h; exact Except.noConfusion h
    | ok p1 =>
      rw [hpr] at h
      rcases ih p1 h with h1 | ⟨r', hr', c0, hc0, hkc⟩
      · rcases processArchiveRow_cases r with ⟨e, he⟩ | hskip | ⟨c0, sell, buy, h0, -, -, hins⟩
        · rw [he p0] at hpr; exact Except.noConfusion hpr
        · rw [hskip p0] at hpr
          injection hpr with h'
          rw [← h'] at h1
          exact Or.inl h1
        · rw [hins p0] at hpr
          injection hpr with h'
          rw [← h'] at h1
          rcases mem_keys_insert _ _ _ _ h1 with h2 | h2
          · exact Or.inl h2
          · exact Or.inr ⟨r, List.mem_cons_self r rs, c0, h0, h2⟩
      · exact Or.inr ⟨r', List.mem_cons_of_mem r hr', c0, hc0, hkc⟩

/-- C7: every key of the `/latest` mapping is the lower-cased code of
some upstream currency, and every non-`"date"` key of the `/archive/`
mapping is the lower-cased first cell of some extracted table row. -/
theorem keys_lower_cased (currencies : List BonbastCurrency)
    (upstream : String → Except Unit Page) (s : String)
    (prices : List (String × ArchVal)) (k : String) :
    (k ∈ dict_keys (read_latest currencies) → ∃ c ∈ currencies, k = py_lower c.code) ∧
    ((read_archive upstream s).1 = .ok prices → k ∈ dict_keys prices → k ≠ "date" →
      ∃ ds ts r c0, strptimeYMD s = some ds ∧ upstream (strftimeYMD ds) = .ok ts ∧
        r ∈ merge_and_extract_tables (pySliceToLast ts) ∧ r[0]? = some c0 ∧
        k = py_lower c0) := by
  constructor
  · intro h
    rcases read_latest_keys_aux currencies [] k h with h' | h'
    · simp [dict_keys] at h'
    · exact h'
  · intro hok hk hnd
    cases hp : strptimeYMD s with
    | none =>
      simp only [read_archive, hp] at hok
      exact Except.noConfusion hok
    | some ds =>
      cases hu : upstream (strftimeYMD ds) with
      | error e =>
        simp only [read_archive, hp, hu] at hok
        exact Except.noConfusion hok
      | ok ts =>
        simp only [read_archive, hp, hu] at hok
        rcases archiveFold_keys _ _ _ k hok hk with h1 | ⟨r, hr, c0, hc0, hkc⟩
        · simp only [dict_keys, List.map_cons, List.map_nil] at h1
          exact absurd (by simpa using h1) hnd
        · exact ⟨ds, ts, r, c0, rfl, hu, hr, hc0, hkc⟩

theorem keys_lower_cased_witness :
    (∃ c ∈ currenciesC7, "usd" = py_lower c.code) ∧
    (∃ ds ts r c0, strptimeYMD "2024-01-05" = some ds ∧
      upstreamC7 (strftimeYMD ds) = .ok ts ∧
      r ∈ merge_and_extract_tables (pySliceToLast ts) ∧ r[0]? = some c0 ∧
      "eur" = py_lower c0) :=
  ⟨(keys_lower_cased currenciesC7 upstreamC7 "x" [] "usd").1 (by decide),
   (keys_lower_cased currenciesC7 upstreamC7 "2024-01-05"
      [("date", .str "2024-01-05"), ("eur", .quote ⟨5, 7⟩)] "eur").2
     (by decide) (by decide) (by decide)⟩


theorem processHistRow_error (p : List (String × Quote)) (r : Row) (e : PyFailure)
    (h : processHistRow p r = .error e) : e = .index_error := by
  unfold processHistRow at h
  repeat' split at h
  all_goals first
    | (injection h with h'; exact h'.symm)
    | exact Except.noConfusion h

theorem processArchiveRow_error (p : List (String × ArchVal)) (r : Row) (e : PyFailure)
    (h : processArchiveRow p r = .error e) : e = .index_error := by
  unfold processArchiveRow at h
  repeat' split at h
  all_goals first
    | (injection h with h'; exact h'.symm)
    | exact Except.noConfusion h

theorem histFold_error (rows : List Row) (p : List (String × Quote)) (e : PyFailure)
    (h : histFold rows p = .error e) : e = .index_error := by
  induction rows generalizing p with
  | nil => simp only [histFold] at h; exact Except.noConfusion h
  | cons r rs ih =>
    simp only [histFold] at h
    cases hpr : processHistRow p r with
    | error e' =>
      rw [hpr] at h
      injection h with h'
      rw [← h']
      exact processHistRow_error p r e' hpr
    | ok p1 =>
      rw [hpr] at h
      exact ih p1 h

theorem archiveFold_error (rows : List Row) (p : List (String × ArchVal)) (e : PyFailure)
    (h : archiveFold rows p = .error e) : e = .index_error := by
  induction rows generalizing p with
  | nil => simp only [archiveFold] at h; exact Except.noConfusion h
  | cons r rs ih =>
    simp only [archiveFold] at h
    cases hpr : processArchiveRow p r with
    | error e' =>
      rw [hpr] at h
      injection h with h'
      rw [← h']
      exact processArchiveRow_error p r e' hpr
    | ok p1 =>
      rw [hpr] at h
      exact ih p1 h

theorem read_historical_no_422 (up : String → String → Except Unit Page)
    (currency s : String) (d : Date) (hs : strptimeYM s = some d) (detail : String) :
    (read_historical_currency up currency s).1 ≠
      .error (.http_exception 422 detail) := by
  simp only [read_historical_currency, hs]
  cases hu : up (strftimeYMD d) currency with
  | error e => simp [hu]
  | ok page =>
    cases hh : page.head? with
    | none => simp [hu, hh]
    | some table =>
      cases hf : histFold table.tail [] with
      | error e =>
        have he := histFold_error _ _ _ hf
        subst he
        simp [hu, hh, hf]
      | ok p => simp [hu, hh, hf]

theorem read_archive_no_422 (up : String → Except Unit Page) (s : String) (d : Date)
    (hs : strptimeYMD s = some d) (detail : String) :
    (read_archive up s).1 ≠ .error (.http_exception 422 detail) := by
  simp only [read_archive, hs]
  cases hu : up (strftimeYMD d) with
  | error e => simp [hu]
  | ok page =>
    cases hf : archiveFold (merge_and_extract_tables (pySliceToLast page))
        [("date", .str (strftimeYMD d))] with
    | error e =>
      have he := archiveFold_error _ _ _ hf
      subst he
      simp [hu, hf]
    | ok p => simp [hu, hf]

theorem rangeLoop_no_422 (up : String → Except Unit Page) (startOrd : Nat) (is : List Nat)
    (acc : List (String × List (String × ArchVal))) (log : List String)
    (hin : ∀ i ∈ is, ∀ detail,
      (read_archive up (strftimeYMD (fromOrdinal (startOrd + i)))).1 ≠
        .error (.http_exception 422 detail))
    (detail : String) :
    (rangeLoop up startOrd is acc log).1 ≠ .error (.http_exception 422 detail) := by
  induction is generalizing acc log with
  | nil => simp [rangeLoop]
  | cons i rest ih =>
    have hread := hin i (List.mem_cons_self i rest)
    have hrest : ∀ j ∈ rest, ∀ det, (read_archive up (strftimeYMD (fromOrdinal (startOrd + j)))).1 ≠
        .error (.http_exception 422 det) :=
      fun j hj => hin j (List.mem_cons_of_mem i hj)
    rcases hra : read_archive up (strftimeYMD (fromOrdinal (startOrd + i))) with ⟨res, tr⟩
    cases res with
    | error e =>
      simp only [rangeLoop, hra]
      intro hc
      apply hread detail
      rw [hra]
      simpa using hc
    | ok price =>
      simp only [rangeLoop, hra]
      cases hpop : dict_pop price "date" with
      | none => simp
      | some p =>
        obtain ⟨v, price'⟩ := p
        cases v with
        | str dstr => exact ih _ _ hrest
        | quote q => simp


set_option maxHeartbeats 400000 in
/-- C2: a date parameter that fails its fixed-format parse makes the
endpoint answer HTTP 422 with the fixed detail message (which begins
with `"Invalid Date format."`) before any upstream fetch; a parameter
that parses never produces a 422 from these handlers. -/
theorem date_validation_422 (up1 : String → String → Except Unit Page)
    (up2 : String → Except Unit Page) (currency s t : String) :
    (strptimeYM s = none →
      read_historical_currency up1 currency s =
        (.error (.http_exception 422 "Invalid Date format. Expected YYYY-MM"), []) ∧
      "Invalid Date format. Expected YYYY-MM" = "Invalid Date format." ++ " Expected YYYY-MM") ∧
    (strptimeYMD s = none →
      read_archive up2 s =
        (.error (.http_exception 422 "Invalid Date format. Expected YYYY-MM-DD"), []) ∧
      "Invalid Date format. Expected YYYY-MM-DD" = "Invalid Date format." ++ " Expected YYYY-MM-DD") ∧
    (strptimeYMD s = none →
      read_archive_range up2 s t =
        (.error (.http_exception 422 "Invalid Date format. Expected YYYY-MM-DD"), [])) ∧
    (∀ ds, strptimeYMD s = some ds → strptimeYMD t = none →
      read_archive_range up2 s t =
        (.error (.http_exception 422 "Invalid Date format. Expected YYYY-MM-DD"), [])) ∧
    (∀ d, strptimeYM s = some d → ∀ detail,
      (read_historical_currency up1 currency s).1 ≠ .error (.http_exception 422 detail)) ∧
    (∀ d, strptimeYMD s = some d → ∀ detail,
      (read_archive up2 s).1 ≠ .error (.http_exception 422 detail)) ∧
    (∀ ds dt, strptimeYMD s = some ds → strptimeYMD t = some dt → ∀ detail,
      (read_archive_range up2 s t).1 ≠ .error (.http_exception 422 detail)) := by
  refine ⟨?_, ?_, ?_, ?_, ?_, ?_, ?_⟩
  · intro h
    exact ⟨by simp only [read_historical_currency, h], rfl⟩
  · intro h
    exact ⟨by simp only [read_archive, h], rfl⟩
  · intro h
    simp only [read_archive_range, h]
  · intro ds hs ht
    simp only [read_archive_range, hs, ht]
  · intro d hd detail
    exact read_historical_no_422 up1 currency s d hd detail
  · intro d hd detail
    exact read_archive_no_422 up2 s d hd detail
  · intro ds dt hs ht detail
    have hvds := strptimeYMD_valid _ _ hs
    have hvdt := strptimeYMD_valid _ _ ht
    obtain ⟨hs1, hs2⟩ := toOrdinal_bounds ds hvds
    obtain ⟨ht1, ht2⟩ := toOrdinal_bounds dt hvdt
    have hrw : read_archive_range up2 s t =
        rangeLoop up2 (toOrdinal ds)
          (pyRange ((toOrdinal dt : Int) - (toOrdinal ds : Int) + 1)) [] [] := by
      simp only [read_archive_range, hs, ht]
    rw [hrw]
    apply rangeLoop_no_422
    intro i hi det
    have hi' : toOrdinal ds + i ≤ toOrdinal dt := by
      simp only [pyRange, List.mem_range] at hi
      omega
    have hv : ValidDate (fromOrdinal (toOrdinal ds + i)) :=
      validDate_fromOrdinal _ (by omega) (by omega)
    exact read_archive_no_422 up2 _ _ (strptimeYMD_strftimeYMD _ hv) det

theorem date_validation_422_witness :
    (read_historical_currency upstreamC2h "usd" "2024-13" =
        (.error (.http_exception 422 "Invalid Date format. Expected YYYY-MM"), []) ∧
      "Invalid Date format. Expected YYYY-MM" = "Invalid Date format." ++ " Expected YYYY-MM") ∧
    (read_archive upstreamC2a "2023-02-29" =
        (.error (.http_exception 422 "Invalid Date format. Expected YYYY-MM-DD"), []) ∧
      "Invalid Date format. Expected YYYY-MM-DD" = "Invalid Date format." ++ " Expected YYYY-MM-DD") ∧
    read_archive_range upstreamC2a "2023-02-29" "2024-01-02" =
      (.error (.http_exception 422 "Invalid Date format. Expected YYYY-MM-DD"), []) ∧
    read_archive_range upstreamC2a "2024-01-01" "bad" =
      (.error (.http_exception 422 "Invalid Date format. Expected YYYY-MM-DD"), []) ∧
    (read_historical_currency upstreamC2h "usd" "2024-02").1 ≠
      .error (.http_exception 422 "Invalid Date format. Expected YYYY-MM") ∧
    (read_archive upstreamC2a "2024-02-29").1 ≠
      .error (.http_exception 422 "Invalid Date format. Expected YYYY-MM-DD") ∧
    (read_archive_range upstreamC2a "2024-01-01" "2024-01-02").1 ≠
      .error (.http_exception 422 "Invalid Date format. Expected YYYY-MM-DD") := by
  refine ⟨(date_validation_422 upstreamC2h upstreamC2a "usd" "2024-13" "x").1 (by decide),
    (date_validation_422 upstreamC2h upstreamC2a "usd" "2023-02-29" "x").2.1 (by decide),
    (date_validation_422 upstreamC2h upstreamC2a "usd" "2023-02-29" "2024-01-02").2.2.1
      (by decide),
    (date_validation_422 upstreamC2h upstreamC2a "usd" "2024-01-01" "bad").2.2.2.1
      ⟨2024, 1, 1⟩ (by decide) (by decide),
    (date_validation_422 upstreamC2h upstreamC2a "usd" "2024-02" "x").2.2.2.2.1
      ⟨2024, 2, 1⟩ (by decide) _,
    (date_validation_422 upstreamC2h upstreamC2a "usd" "2024-02-29" "x").2.2.2.2.2.1
      ⟨2024, 2, 29⟩ (by decide) _,
    (date_validation_422 upstreamC2h upstreamC2a "usd" "2024-01-01" "2024-01-02").2.2.2.2.2.2
      ⟨2024, 1, 1⟩ ⟨2024, 1, 2⟩ (by decide) (by decide) _⟩

end PriceProxy
